import Mathlib

/-!
Verification of the audio mixing engine in Source/Core/AudioCommon/Mixer.h
(Dolphin/Ishiiruka).  Floating-point samples are modelled by exact rationals;
machine integers (u32 indices) by naturals reduced mod 2^32 where overflow
matters.  Functions whose bodies appear in Mixer.h are translated directly;
bodies that live in Mixer.cpp (not part of the shown sources) are modelled
from the specification and marked as such in their doc comments.
-/

namespace Mixer

/-- `static const u32 MAX_SAMPLES = 2048;` (Mixer.h line 50). -/
def MAX_SAMPLES : Nat := 2048

/-- `static const u32 INDEX_MASK = MAX_SAMPLES * 2 - 1;` (Mixer.h line 51). -/
def INDEX_MASK : Nat := MAX_SAMPLES * 2 - 1

/-- Size of `std::array<float, MAX_SAMPLES * 2> m_float_buffer` (Mixer.h line 165). -/
def floatBufferSize : Nat := MAX_SAMPLES * 2

/-- `const float rndrcp = 8.f / float(RAND_MAX);` (Mixer.h line 16),
with `RAND_MAX` kept as a parameter. -/
def rndrcp (randMax : ℚ) : ℚ := 8 / randMax

/-- `#define DITHER_NOISE ((rand() * rndrcp) - 4.f)` (Mixer.h line 17):
the value produced for a given `rand()` result `r`. -/
def DITHER_NOISE (randMax r : ℚ) : ℚ := r * rndrcp randMax - 4

/-- `Signed16ToFloat(const s16 s) { return s * 0.000030517578125f; }`
(Mixer.h lines 20-23). -/
def Signed16ToFloat (s : ℤ) : ℚ := (s : ℚ) * 0.000030517578125

/-- `TriangleDither(float& sample, float& prev_dither)` (Mixer.h lines 26-31):
`float dither = DITHER_NOISE; sample += dither - prev_dither;
prev_dither = dither;`.  The freshly generated dither value is the third
argument; the result is the pair (new sample, new prev_dither). -/
def TriangleDither (sample prev_dither dither : ℚ) : ℚ × ℚ :=
  (sample + (dither - prev_dither), dither)

/-- Interpolation kernels: the two `MixerFifo` subclasses of Mixer.h
(`LinearMixerFifo`, `CubicMixerFifo`, lines 178-190). -/
inductive Kernel where
  | linear : Kernel
  | cubic : Kernel
deriving DecidableEq, Repr

/-- Configuration of one `MixerFifo` as fixed by its constructor call:
which subclass it is and the input sample rate passed in. -/
structure FifoConfig where
  kernel : Kernel
  m_input_sample_rate : Nat
deriving DecidableEq, Repr

/-- The fifo members of `CMixer` after the constructor (Mixer.h lines 36-48,
192-197): `m_dma_mixer(this, 32000)` and `m_streaming_mixer(this, 48000)`
are `CubicMixerFifo`, `m_wiimote_speaker_mixer(this, 3000)` is
`LinearMixerFifo`; `m_sample_rate(BackendSampleRate)`. -/
structure CMixerConfig where
  m_dma_mixer : FifoConfig
  m_streaming_mixer : FifoConfig
  m_wiimote_speaker_mixer : FifoConfig
  m_sample_rate : Nat
deriving DecidableEq, Repr

/-- The `CMixer` constructor (Mixer.h lines 36-48) restricted to the fields
above. -/
def CMixerCtor (backendSampleRate : Nat) : CMixerConfig :=
  { m_dma_mixer := { kernel := Kernel.cubic, m_input_sample_rate := 32000 }
    m_streaming_mixer := { kernel := Kernel.cubic, m_input_sample_rate := 48000 }
    m_wiimote_speaker_mixer := { kernel := Kernel.linear, m_input_sample_rate := 3000 }
    m_sample_rate := backendSampleRate }

/-- Calls made on a `WaveFileWriter` (declared in AudioCommon/WaveFile.h,
outside the shown sources): the writer is modelled by its trace of calls. -/
inductive WaveCall where
  | start (filename : String) (rate : Nat) : WaveCall
  | setSkipSilence (b : Bool) : WaveCall
  | stop : WaveCall
deriving DecidableEq, Repr

/-- The logging-related state of `CMixer`: the two guard booleans
`m_log_dtk_audio`, `m_log_dsp_audio` (Mixer.h lines 204-205), the traces of
the two wave writers `g_wave_writer_dtk`, `g_wave_writer_dsp` (lines
201-202), and a field `rest` standing for all remaining engine state. -/
structure LogState where
  m_log_dtk_audio : Bool
  m_log_dsp_audio : Bool
  g_wave_writer_dtk : List WaveCall
  g_wave_writer_dsp : List WaveCall
  rest : Nat
deriving DecidableEq, Repr

/-- `CMixer::StartLogDTKAudio` (Mixer.h lines 74-87): if the guard is
false, set it, call `g_wave_writer_dtk.Start(filename, 48000)` and
`SetSkipSilence(false)`; otherwise only warn. -/
def StartLogDTKAudio (filename : String) (s : LogState) : LogState :=
  if !s.m_log_dtk_audio then
    { s with
      m_log_dtk_audio := true
      g_wave_writer_dtk := s.g_wave_writer_dtk ++
        [WaveCall.start filename 48000, WaveCall.setSkipSilence false] }
  else
    s

/-- `CMixer::StopLogDTKAudio` (Mixer.h lines 89-101): if the guard is
true, clear it and call `g_wave_writer_dtk.Stop()`; otherwise only warn. -/
def StopLogDTKAudio (s : LogState) : LogState :=
  if s.m_log_dtk_audio then
    { s with
      m_log_dtk_audio := false
      g_wave_writer_dtk := s.g_wave_writer_dtk ++ [WaveCall.stop] }
  else
    s

/-- `CMixer::StartLogDSPAudio` (Mixer.h lines 103-116): same shape as the
DTK variant, with rate 32000 and the DSP writer. -/
def StartLogDSPAudio (filename : String) (s : LogState) : LogState :=
  if !s.m_log_dsp_audio then
    { s with
      m_log_dsp_audio := true
      g_wave_writer_dsp := s.g_wave_writer_dsp ++
        [WaveCall.start filename 32000, WaveCall.setSkipSilence false] }
  else
    s

/-- `CMixer::StopLogDSPAudio` (Mixer.h lines 118-130). -/
def StopLogDSPAudio (s : LogState) : LogState :=
  if s.m_log_dsp_audio then
    { s with
      m_log_dsp_audio := false
      g_wave_writer_dsp := s.g_wave_writer_dsp ++ [WaveCall.stop] }
  else
    s

/-- One channel of the float-to-fixed conversion loop: each successive
output sample is produced by `TriangleDither` (Mixer.h lines 26-31),
threading the channel's persistent `prev_dither` state; the fresh dither
value generated by the k-th call is `d k`.  The loop itself (calling
`TriangleDither` once per sample per channel) is in `CMixer::Mix`
(Mixer.cpp); modelled from the spec: the per-call step is exactly the
`TriangleDither` of Mixer.h. -/
def ditherChannel (d : Nat → ℚ) : Nat → ℚ → List ℚ → List ℚ
  | _, _, [] => []
  | k, prev, x :: xs =>
    (TriangleDither x prev (d k)).1 ::
      ditherChannel d (k + 1) (TriangleDither x prev (d k)).2 xs

/-- The stereo conversion loop: left and right channels each thread their
own persistent dither state (`m_l_dither_prev`, `m_r_dither_prev`, Mixer.h
lines 214-215) and consume their own stream of fresh dither values.
Modelled from the spec: the loop is in `CMixer::Mix` (Mixer.cpp); each
channel step is the `TriangleDither` of Mixer.h. -/
def ditherStereo (dl dr : Nat → ℚ) : Nat → ℚ → ℚ → List (ℚ × ℚ) → List (ℚ × ℚ)
  | _, _, _, [] => []
  | k, pl, pr, x :: xs =>
    ((TriangleDither x.1 pl (dl k)).1, (TriangleDither x.2 pr (dr k)).1) ::
      ditherStereo dl dr (k + 1) (TriangleDither x.1 pl (dl k)).2
        (TriangleDither x.2 pr (dr k)).2 xs

/-- `out = sample[i]*(1−f) + sample[i+1]*f` per channel.  Modelled from the
spec: the body of `LinearMixerFifo::Interpolate` is in Mixer.cpp, not among
the shown sources. -/
def linearInterpolate (s0 s1 f : ℚ) : ℚ := s0 * (1 - f) + s1 * f

/-- Modelled from the spec: the body of `MixerFifo::Mix` is in Mixer.cpp,
not among the shown sources.  Pull algorithm steps 3-6 of the spec: for
each of the requested output frames the fractional source position
advances by `ratio`; while the ring buffer still holds the frames the
kernel needs (`need` lookahead frames beyond the integer position, out of
`avail` readable frames) the kernel interpolates at that position; once it
runs out, the remaining frames are silence `(0, 0)`. -/
def pullFrames (avail need : Nat) (interp : ℚ → ℚ × ℚ) (ratio : ℚ) :
    ℚ → Nat → List (ℚ × ℚ)
  | _, 0 => []
  | pos, Nat.succ k =>
    (if ⌊pos⌋ + (need : ℤ) < (avail : ℤ) then interp pos else ((0 : ℚ), (0 : ℚ))) ::
      pullFrames avail need interp ratio (pos + ratio) k

/-- Modelled from the spec: `MixerFifo::Mix` produces the frames of
`pullFrames` and "returns the number of output frames actually produced".
The returned count is the number of frames in the produced list. -/
def MixerFifoMix (avail need : Nat) (interp : ℚ → ℚ × ℚ) (ratio pos : ℚ)
    (numSamples : Nat) : List (ℚ × ℚ) × Nat :=
  ((pullFrames avail need interp ratio pos numSamples),
    (pullFrames avail need interp ratio pos numSamples).length)

/-- The modulus of the `u32` counters `m_write_index`, `m_read_index`
(Mixer.h lines 167-168): 2^32. -/
def U32MOD : Nat := 4294967296

/-- The two `u32` index counters of a `MixerFifo` ring buffer (Mixer.h
lines 167-168), each held reduced mod 2^32. -/
structure RingIdx where
  m_write_index : Nat
  m_read_index : Nat
deriving DecidableEq, Repr

/-- `write_index - read_index` (mod 2^32): the unread-frame count. -/
def unreadFrames (s : RingIdx) : Nat :=
  (s.m_write_index + U32MOD - s.m_read_index) % U32MOD

/-- Well-formed index state: both counters reduced mod 2^32 and the
unread count within capacity. -/
def RingIdxWF (s : RingIdx) : Prop :=
  s.m_write_index < U32MOD ∧ s.m_read_index < U32MOD ∧
    unreadFrames s ≤ MAX_SAMPLES

instance (s : RingIdx) : Decidable (RingIdxWF s) := by
  unfold RingIdxWF; infer_instance

/-- Modelled from the spec: the body of `MixerFifo::PushSamples` is in
Mixer.cpp, not among the shown sources.  One pushed frame: write at
`write_index & mask`, increment `write_index`; no blocking — if the push
would make the unread count exceed capacity `MAX_SAMPLES`, the oldest
unread frame is implicitly overwritten, i.e. `read_index` moves past it. -/
def pushOneFrame (s : RingIdx) : RingIdx :=
  { m_write_index := (s.m_write_index + 1) % U32MOD
    m_read_index :=
      if unreadFrames s = MAX_SAMPLES then (s.m_read_index + 1) % U32MOD
      else s.m_read_index }

/-- Pushing `n` frames in sequence (`MixerFifo::PushSamples` over a whole
input array, modelled from the spec). -/
def pushFrames : Nat → RingIdx → RingIdx
  | 0, s => s
  | Nat.succ n, s => pushFrames n (pushOneFrame s)

/-- Clamping to `[lo, hi]`. -/
def clampQ (lo hi x : ℚ) : ℚ := max lo (min hi x)

/-- Modelled from the spec: the rate-controller state update is in
`MixerFifo::Mix` (Mixer.cpp), not among the shown sources.  One step of
the exponential moving average of `error = fill_fraction − low_watermark`
with smoothing constant `CONTROL_AVG`. -/
def rateAvgStep (controlAvg lowWatermark avg fill : ℚ) : ℚ :=
  avg + controlAvg * ((fill - lowWatermark) - avg)

/-- The averaged error after feeding a whole sequence of fill-fraction
inputs (modelled from the spec). -/
def rateAvg (controlAvg lowWatermark init : ℚ) (fills : List ℚ) : ℚ :=
  fills.foldl (rateAvgStep controlAvg lowWatermark) init

/-- Modelled from the spec: "multiply the averaged error by CONTROL_FACTOR
to get a proposed frequency_shift, then clamp to
`[1 − MAX_FREQ_SHIFT, 1 + MAX_FREQ_SHIFT]`".  The numeric values of the
`static const float` members `CONTROL_FACTOR` and `MAX_FREQ_SHIFT`
(declared Mixer.h lines 53-54) are defined in Mixer.cpp, so they stay
parameters here. -/
def frequencyShift (controlFactor maxFreqShift avg : ℚ) : ℚ :=
  clampQ (1 - maxFreqShift) (1 + maxFreqShift) (controlFactor * avg)

end Mixer

namespace Mixer

/-- C6: the literal `0.000030517578125` of `Signed16ToFloat` is exactly
`2^-15 = 1/32768`. -/
lemma signed16_const_eq : (0.000030517578125 : ℚ) = 1 / 32768 := by
  norm_num

/-- **C6.** For every signed 16-bit input sample `s`, `Signed16ToFloat s`
equals `s / 32768` exactly, and for `s` in the s16 range
`[-32768, 32767]` the result lies in the half-open interval `[-1, 1)`. -/
theorem Signed16ToFloat_correct (s : ℤ) :
    Signed16ToFloat s = (s : ℚ) / 32768 ∧
    (-32768 ≤ s → s ≤ 32767 →
      -1 ≤ Signed16ToFloat s ∧ Signed16ToFloat s < 1) := by
  constructor
  · unfold Signed16ToFloat
    rw [signed16_const_eq]
    ring
  · intro hlo hhi
    unfold Signed16ToFloat
    rw [signed16_const_eq]
    have hlo' : (-32768 : ℚ) ≤ (s : ℚ) := by exact_mod_cast hlo
    have hhi' : (s : ℚ) ≤ 32767 := by exact_mod_cast hhi
    constructor
    · nlinarith
    · nlinarith

/-- Witness for C6 at the concrete sample `s = -32768`. -/
theorem Signed16ToFloat_correct_witness :
    Signed16ToFloat (-32768) = ((-32768 : ℤ) : ℚ) / 32768 ∧
    (-1 ≤ Signed16ToFloat (-32768) ∧ Signed16ToFloat (-32768) < 1) := by
  have h := Signed16ToFloat_correct (-32768)
  exact ⟨h.1, h.2 (by decide) (by decide)⟩

/-- **C7.** The ring buffer capacity is `MAX_SAMPLES = 2048`, a power of
two; the storage is `MAX_SAMPLES * 2 = 4096` floats; the index mask is
`MAX_SAMPLES * 2 - 1 = 4095`; and masking any index with it yields a valid
position in the storage array. -/
theorem ring_buffer_layout :
    MAX_SAMPLES = 2048 ∧
    MAX_SAMPLES = 2 ^ 11 ∧
    INDEX_MASK = MAX_SAMPLES * 2 - 1 ∧
    INDEX_MASK = 4095 ∧
    floatBufferSize = 2 * MAX_SAMPLES ∧
    ∀ i : Nat, i &&& INDEX_MASK < floatBufferSize := by
  refine ⟨rfl, by decide, rfl, by decide, by decide, ?_⟩
  intro i
  have h : i &&& INDEX_MASK ≤ INDEX_MASK := Nat.and_le_right
  have h2 : INDEX_MASK < floatBufferSize := by decide
  omega

/-- **C9.** The engine is constructed with exactly three fifos in fixed
roles: the DMA fifo (32000 Hz) and the streaming fifo (48000 Hz) are cubic,
the wiimote-speaker fifo (3000 Hz) is linear. -/
theorem ctor_fifo_roles (backendSampleRate : Nat) :
    (CMixerCtor backendSampleRate).m_dma_mixer =
      { kernel := Kernel.cubic, m_input_sample_rate := 32000 } ∧
    (CMixerCtor backendSampleRate).m_streaming_mixer =
      { kernel := Kernel.cubic, m_input_sample_rate := 48000 } ∧
    (CMixerCtor backendSampleRate).m_wiimote_speaker_mixer =
      { kernel := Kernel.linear, m_input_sample_rate := 3000 } ∧
    (CMixerCtor backendSampleRate).m_sample_rate = backendSampleRate :=
  ⟨rfl, rfl, rfl, rfl⟩

/-- **C8.** Redundant log control calls are no-ops for both log kinds:
starting an already-started log or stopping an already-stopped one leaves
the guard boolean, the wave writer and all other state unchanged, and a
start (or stop) followed by a redundant one equals a single start (stop). -/
theorem log_calls_idempotent (f g : String) (s : LogState) :
    (s.m_log_dtk_audio = true → StartLogDTKAudio f s = s) ∧
    (s.m_log_dtk_audio = false → StopLogDTKAudio s = s) ∧
    (s.m_log_dsp_audio = true → StartLogDSPAudio f s = s) ∧
    (s.m_log_dsp_audio = false → StopLogDSPAudio s = s) ∧
    StartLogDTKAudio g (StartLogDTKAudio f s) = StartLogDTKAudio f s ∧
    StopLogDTKAudio (StopLogDTKAudio s) = StopLogDTKAudio s ∧
    StartLogDSPAudio g (StartLogDSPAudio f s) = StartLogDSPAudio f s ∧
    StopLogDSPAudio (StopLogDSPAudio s) = StopLogDSPAudio s := by
  refine ⟨?_, ?_, ?_, ?_, ?_, ?_, ?_, ?_⟩
  · intro h; simp [StartLogDTKAudio, h]
  · intro h; simp [StopLogDTKAudio, h]
  · intro h; simp [StartLogDSPAudio, h]
  · intro h; simp [StopLogDSPAudio, h]
  · by_cases h : s.m_log_dtk_audio <;> simp [StartLogDTKAudio, h]
  · by_cases h : s.m_log_dtk_audio <;> simp [StopLogDTKAudio, h]
  · by_cases h : s.m_log_dsp_audio <;> simp [StartLogDSPAudio, h]
  · by_cases h : s.m_log_dsp_audio <;> simp [StopLogDSPAudio, h]

/-- Witness for C8: a concrete state with DTK logging started and DSP
logging stopped; the redundant calls leave it unchanged. -/
theorem log_calls_idempotent_witness :
    StartLogDTKAudio "a"
        { m_log_dtk_audio := true, m_log_dsp_audio := false,
          g_wave_writer_dtk := [WaveCall.start "a" 48000],
          g_wave_writer_dsp := [], rest := 7 } =
      { m_log_dtk_audio := true, m_log_dsp_audio := false,
        g_wave_writer_dtk := [WaveCall.start "a" 48000],
        g_wave_writer_dsp := [], rest := 7 } ∧
    StopLogDSPAudio
        { m_log_dtk_audio := true, m_log_dsp_audio := false,
          g_wave_writer_dtk := [WaveCall.start "a" 48000],
          g_wave_writer_dsp := [], rest := 7 } =
      { m_log_dtk_audio := true, m_log_dsp_audio := false,
        g_wave_writer_dtk := [WaveCall.start "a" 48000],
        g_wave_writer_dsp := [], rest := 7 } := by
  have h := log_calls_idempotent "a" "b"
    { m_log_dtk_audio := true, m_log_dsp_audio := false,
      g_wave_writer_dtk := [WaveCall.start "a" 48000],
      g_wave_writer_dsp := [], rest := 7 }
  exact ⟨h.1 rfl, h.2.2.2.1 rfl⟩

/-- Closed form of `ditherChannel`: the j-th output sample equals the j-th
input plus the difference between the j-th dither value and its
predecessor (the initial `prev_dither` state for j = 0). -/
lemma ditherChannel_getD (d : Nat → ℚ) :
    ∀ (xs : List ℚ) (k : Nat) (prev : ℚ) (j : Nat), j < xs.length →
      (ditherChannel d k prev xs).getD j 0 =
        xs.getD j 0 + (d (k + j) - if j = 0 then prev else d (k + j - 1)) := by
  intro xs
  induction xs with
  | nil => intro k prev j h; simp at h
  | cons x xs ih =>
    intro k prev j h
    cases j with
    | zero => simp [ditherChannel, TriangleDither]
    | succ j =>
      have hj : j < xs.length := by simpa using h
      have := ih (k + 1) (d k) j hj
      simp only [ditherChannel, TriangleDither, List.getD_cons_succ]
      rw [this]
      cases j with
      | zero => simp
      | succ j =>
        have h1 : k + 1 + (j + 1) = k + (j + 1 + 1) := by omega
        have h2 : k + 1 + (j + 1) - 1 = k + (j + 1 + 1) - 1 := by omega
        simp [h1, h2]

/-- `ditherChannel` preserves length. -/
lemma ditherChannel_length (d : Nat → ℚ) :
    ∀ (xs : List ℚ) (k : Nat) (prev : ℚ),
      (ditherChannel d k prev xs).length = xs.length := by
  intro xs
  induction xs with
  | nil => intro k prev; rfl
  | cons x xs ih => intro k prev; simp [ditherChannel, ih]

/-- The stereo loop factors into two independent per-channel loops: the
left outputs depend only on the left inputs, left dither stream and left
state, and likewise on the right. -/
lemma ditherStereo_fst_snd (dl dr : Nat → ℚ) :
    ∀ (xs : List (ℚ × ℚ)) (k : Nat) (pl pr : ℚ),
      (ditherStereo dl dr k pl pr xs).map Prod.fst =
          ditherChannel dl k pl (xs.map Prod.fst) ∧
        (ditherStereo dl dr k pl pr xs).map Prod.snd =
          ditherChannel dr k pr (xs.map Prod.snd) := by
  intro xs
  induction xs with
  | nil => intro k pl pr; exact ⟨rfl, rfl⟩
  | cons x xs ih =>
    intro k pl pr
    refine ⟨?_, ?_⟩ <;>
      simp [ditherStereo, ditherChannel, (ih (k + 1) _ _).1, (ih (k + 1) _ _).2]

/-- **C4.** Float-to-fixed conversion dithers as specified: a single
`TriangleDither` call replaces the sample by `sample + (d − previous)` and
stores the fresh dither `d` as the new previous; over a stereo stream the
left and right channels thread their own persistent dither state
independently, and the j-th output of a channel is its j-th input plus
`d_j − d_{j−1}` (with the initial state in place of `d_{−1}`). -/
theorem triangle_dither_spec (dl dr : Nat → ℚ) (pl pr : ℚ) (xs : List (ℚ × ℚ)) :
    (∀ sample prev d : ℚ, TriangleDither sample prev d = (sample + (d - prev), d)) ∧
    (ditherStereo dl dr 0 pl pr xs).map Prod.fst =
      ditherChannel dl 0 pl (xs.map Prod.fst) ∧
    (ditherStereo dl dr 0 pl pr xs).map Prod.snd =
      ditherChannel dr 0 pr (xs.map Prod.snd) ∧
    (∀ j, j < xs.length →
      (ditherChannel dl 0 pl (xs.map Prod.fst)).getD j 0 =
        (xs.map Prod.fst).getD j 0 + (dl j - if j = 0 then pl else dl (j - 1))) := by
  refine ⟨fun _ _ _ => rfl, (ditherStereo_fst_snd dl dr xs 0 pl pr).1,
    (ditherStereo_fst_snd dl dr xs 0 pl pr).2, ?_⟩
  intro j hj
  have := ditherChannel_getD dl (xs.map Prod.fst) 0 pl j (by simpa using hj)
  simpa using this

/-- Witness for C4 at the concrete stream `[(1, 10), (3, 30)]` with left
dithers `0, 1, 2, …`, right dithers `5, 5, 5, …` and initial states 2, 3. -/
theorem triangle_dither_spec_witness :
    (ditherChannel (fun k => (k : ℚ)) 0 2 ([((1 : ℚ), (10 : ℚ)), (3, 30)].map Prod.fst)).getD 1 0 =
      ([((1 : ℚ), (10 : ℚ)), (3, 30)].map Prod.fst).getD 1 0 +
        ((fun k => (k : ℚ)) 1 - (fun k => (k : ℚ)) 0) := by
  have h := (triangle_dither_spec (fun k => (k : ℚ)) (fun _ => (5 : ℚ)) 2 3
    [((1 : ℚ), (10 : ℚ)), (3, 30)]).2.2.2 1 (by decide)
  simpa using h

/-- Sum of a dithered channel: the dither offsets telescope, leaving only
the last dither value minus the initial state. -/
lemma ditherChannel_sum (d : Nat → ℚ) :
    ∀ (xs : List ℚ) (k : Nat) (prev : ℚ), xs ≠ [] →
      (ditherChannel d k prev xs).sum = xs.sum + (d (k + xs.length - 1) - prev) := by
  intro xs
  induction xs with
  | nil => intro k prev h; exact absurd rfl h
  | cons x xs ih =>
    intro k prev _
    cases xs with
    | nil => simp [ditherChannel, TriangleDither]; try ring
    | cons y ys =>
      have hne : y :: ys ≠ ([] : List ℚ) := by simp
      have := ih (k + 1) (d k) hne
      simp only [ditherChannel, TriangleDither, List.sum_cons] at this ⊢
      rw [this]
      have hlen : k + 1 + (y :: ys).length - 1 = k + (y :: ys).length := by
        simp
        try omega
      rw [hlen]
      have hlen2 : k + (x :: y :: ys).length - 1 = k + (y :: ys).length := by
        simp
        try omega
      rw [hlen2]
      ring

/-- **C10.** Over any run of `n ≥ 1` consecutive `TriangleDither` calls
threading one channel's dither state, the injected offsets telescope: the
total output sum minus input sum is `d_{n−1} − d_init`, hence bounded by 8
(twice the dither amplitude 4) independently of `n` whenever every dither
value and the initial state lie in `[-4, 4]`. -/
theorem dither_noise_telescopes (d : Nat → ℚ) (init : ℚ) (xs : List ℚ) (n : Nat)
    (hn : xs.length = n) (hpos : 0 < n) :
    (ditherChannel d 0 init xs).sum - xs.sum = d (n - 1) - init ∧
    ((∀ k, -4 ≤ d k ∧ d k ≤ 4) → -4 ≤ init → init ≤ 4 →
      |(ditherChannel d 0 init xs).sum - xs.sum| ≤ 8) := by
  have hne : xs ≠ [] := by
    intro h; rw [h] at hn; simp at hn; omega
  have hsum := ditherChannel_sum d xs 0 init hne
  have hmain : (ditherChannel d 0 init xs).sum - xs.sum = d (n - 1) - init := by
    rw [hsum, hn]; ring_nf
  refine ⟨hmain, ?_⟩
  intro hd h0 h4
  rw [hmain]
  have h1 := (hd (n - 1)).1
  have h2 := (hd (n - 1)).2
  rw [abs_le]
  constructor <;> linarith

/-- Witness for C10 with constant dither 2, initial state 1, inputs
`[5, 6]`: the cumulative offset is `2 − 1 = 1`, within the bound 8. -/
theorem dither_noise_telescopes_witness :
    (ditherChannel (fun _ => (2 : ℚ)) 0 1 [5, 6]).sum - ([5, 6] : List ℚ).sum =
        (2 : ℚ) - 1 ∧
      |(ditherChannel (fun _ => (2 : ℚ)) 0 1 [5, 6]).sum - ([5, 6] : List ℚ).sum| ≤ 8 := by
  have h := dither_noise_telescopes (fun _ => (2 : ℚ)) 1 [5, 6] 2 (by decide) (by decide)
  exact ⟨h.1, h.2 (fun k => by norm_num) (by norm_num) (by norm_num)⟩

/-- **C5.** DC round trip: the dither noise generated per step,
`DITHER_NOISE = rand() * (8 / RAND_MAX) − 4`, always lies in `[-4, 4]`;
interpolating a constant (DC) buffer at any fraction reproduces the
constant exactly; and the dithered output stays within 8 (the width of
the dither range) of the DC input whenever the current and previous
dither values are in `[-4, 4]`. -/
theorem dc_round_trip_dither_bounded (randMax r c f prev d : ℚ)
    (hR : 0 < randMax) (hr0 : 0 ≤ r) (hr1 : r ≤ randMax)
    (hp0 : -4 ≤ prev) (hp1 : prev ≤ 4) (hd0 : -4 ≤ d) (hd1 : d ≤ 4) :
    (-4 ≤ DITHER_NOISE randMax r ∧ DITHER_NOISE randMax r ≤ 4) ∧
    linearInterpolate c c f = c ∧
    |(TriangleDither (linearInterpolate c c f) prev d).1 - c| ≤ 8 := by
  have hlin : linearInterpolate c c f = c := by
    unfold linearInterpolate; ring
  refine ⟨⟨?_, ?_⟩, hlin, ?_⟩
  · unfold DITHER_NOISE rndrcp
    have h : 0 ≤ r * (8 / randMax) := by positivity
    linarith
  · unfold DITHER_NOISE rndrcp
    rw [mul_div_assoc']
    have h : r * 8 / randMax ≤ 8 := by
      rw [div_le_iff₀ hR]; nlinarith
    linarith
  · rw [hlin]
    unfold TriangleDither
    have : c + (d - prev) - c = d - prev := by ring
    rw [this, abs_le]
    constructor <;> linarith

/-- Witness for C5 at `RAND_MAX = 32767`, `rand() = 100`, DC value `1/2`,
fraction `1/3`, previous dither `0`, fresh dither `4`. -/
theorem dc_round_trip_dither_bounded_witness :
    (-4 ≤ DITHER_NOISE 32767 100 ∧ DITHER_NOISE 32767 100 ≤ 4) ∧
    linearInterpolate (1 / 2) (1 / 2) (1 / 3) = 1 / 2 ∧
    |(TriangleDither (linearInterpolate (1 / 2) (1 / 2) (1 / 3)) 0 4).1 - 1 / 2| ≤ 8 :=
  dc_round_trip_dither_bounded 32767 100 (1 / 2) (1 / 3) 0 4
    (by norm_num) (by norm_num) (by norm_num)
    (by norm_num) (by norm_num) (by norm_num) (by norm_num)

/-- `pullFrames` always produces exactly the requested number of frames. -/
lemma pullFrames_length (avail need : Nat) (interp : ℚ → ℚ × ℚ) (ratio : ℚ) :
    ∀ (n : Nat) (pos : ℚ), (pullFrames avail need interp ratio pos n).length = n := by
  intro n
  induction n with
  | zero => intro pos; rfl
  | succ k ih => intro pos; simp [pullFrames, ih]

/-- Closed form of `pullFrames`: the j-th output frame is the kernel's
value at position `pos + j·ratio` when the buffer still has the needed
frames there, and silence otherwise. -/
lemma pullFrames_getD (avail need : Nat) (interp : ℚ → ℚ × ℚ) (ratio : ℚ) :
    ∀ (n : Nat) (pos : ℚ) (j : Nat), j < n →
      (pullFrames avail need interp ratio pos n).getD j (0, 0) =
        if ⌊pos + (j : ℚ) * ratio⌋ + (need : ℤ) < (avail : ℤ) then
          interp (pos + (j : ℚ) * ratio)
        else (0, 0) := by
  intro n
  induction n with
  | zero => intro pos j h; omega
  | succ k ih =>
    intro pos j h
    cases j with
    | zero => simp [pullFrames]
    | succ j =>
      have hj : j < k := by omega
      have heq : pos + ratio + (j : ℚ) * ratio = pos + ((j + 1 : Nat) : ℚ) * ratio := by
        push_cast
        ring
      have hih := ih (pos + ratio) j hj
      simp only [pullFrames, List.getD_cons_succ]
      rw [hih, heq]

/-- **C1.** A `Mix` call with a requested output frame count produces
exactly that many frames and returns that count; once the ring buffer
lacks the frames the kernel needs at some step, every later output frame
of the call is silence `(0, 0)` — never a partial completion, never a
block. -/
theorem mix_fills_requested_count (avail need : Nat) (interp : ℚ → ℚ × ℚ)
    (ratio pos : ℚ) (n : Nat) (hr : 0 ≤ ratio) :
    (MixerFifoMix avail need interp ratio pos n).2 = n ∧
    (MixerFifoMix avail need interp ratio pos n).1.length = n ∧
    (∀ j k : Nat, j ≤ k → k < n →
      (avail : ℤ) ≤ ⌊pos + (j : ℚ) * ratio⌋ + (need : ℤ) →
      (MixerFifoMix avail need interp ratio pos n).1.getD k (0, 0) = (0, 0)) := by
  refine ⟨pullFrames_length avail need interp ratio n pos,
    pullFrames_length avail need interp ratio n pos, ?_⟩
  intro j k hjk hk hstarve
  have hjc : (j : ℚ) ≤ (k : ℚ) := by exact_mod_cast hjk
  have hmono : pos + (j : ℚ) * ratio ≤ pos + (k : ℚ) * ratio := by nlinarith
  have hfl : ⌊pos + (j : ℚ) * ratio⌋ ≤ ⌊pos + (k : ℚ) * ratio⌋ :=
    Int.floor_le_floor hmono
  have hcond : ¬ (⌊pos + (k : ℚ) * ratio⌋ + (need : ℤ) < (avail : ℤ)) := by omega
  have hD := pullFrames_getD avail need interp ratio n pos k hk
  calc (MixerFifoMix avail need interp ratio pos n).1.getD k (0, 0)
      = (pullFrames avail need interp ratio pos n).getD k (0, 0) := rfl
    _ = (0, 0) := by rw [hD]; exact if_neg hcond

/-- Witness for C1: one readable frame, linear lookahead 1, ratio 1,
3 requested frames — starvation hits at step 1 and frame 2 is silence. -/
theorem mix_fills_requested_count_witness :
    (MixerFifoMix 1 1 (fun q => (q, q)) 1 0 3).2 = 3 ∧
    (MixerFifoMix 1 1 (fun q => (q, q)) 1 0 3).1.getD 2 ((0 : ℚ), (0 : ℚ)) = (0, 0) := by
  have h := mix_fills_requested_count 1 1 (fun q => (q, q)) 1 0 3 (by norm_num)
  refine ⟨h.1, h.2.2 1 2 (by norm_num) (by norm_num) ?_⟩
  norm_num

/-- Pushing one frame preserves well-formedness of the index pair: in
particular the unread count stays within `MAX_SAMPLES`. -/
lemma pushOneFrame_WF (s : RingIdx) (h : RingIdxWF s) :
    RingIdxWF (pushOneFrame s) := by
  obtain ⟨h1, h2, h3⟩ := h
  simp only [U32MOD] at h1 h2
  simp only [unreadFrames, U32MOD, MAX_SAMPLES] at h3
  simp only [RingIdxWF, pushOneFrame, unreadFrames, U32MOD, MAX_SAMPLES]
  split_ifs with hfull <;> omega

/-- **C2.** From any well-formed ring-index state, pushing any number of
frames keeps the unread count `write_index − read_index` (mod 2^32) within
the capacity `MAX_SAMPLES`; a push arriving when the buffer is full drops
the oldest unread frame (`read_index` advances past it) while the write
still happens — the producer never blocks. -/
theorem push_drop_oldest_invariant (s : RingIdx) (n : Nat) (h : RingIdxWF s) :
    RingIdxWF (pushFrames n s) ∧
    unreadFrames (pushFrames n s) ≤ MAX_SAMPLES ∧
    (unreadFrames s = MAX_SAMPLES →
      (pushOneFrame s).m_read_index = (s.m_read_index + 1) % U32MOD ∧
      (pushOneFrame s).m_write_index = (s.m_write_index + 1) % U32MOD) := by
  have hWF : ∀ (m : Nat) (t : RingIdx), RingIdxWF t → RingIdxWF (pushFrames m t) := by
    intro m
    induction m with
    | zero => intro t ht; exact ht
    | succ m ih => intro t ht; exact ih _ (pushOneFrame_WF t ht)
  refine ⟨hWF n s h, (hWF n s h).2.2, ?_⟩
  intro hfull
  exact ⟨by simp [pushOneFrame, hfull], rfl⟩

/-- Witness for C2 at a full buffer (`write = 2048`, `read = 0`): one more
push keeps the invariant and advances both indices. -/
theorem push_drop_oldest_invariant_witness :
    RingIdxWF (pushFrames 1 ⟨2048, 0⟩) ∧
    unreadFrames (pushFrames 1 ⟨2048, 0⟩) ≤ MAX_SAMPLES ∧
    ((pushOneFrame ⟨2048, 0⟩).m_read_index = (0 + 1) % U32MOD ∧
      (pushOneFrame ⟨2048, 0⟩).m_write_index = (2048 + 1) % U32MOD) := by
  have h := push_drop_oldest_invariant ⟨2048, 0⟩ 1 (by decide)
  exact ⟨h.1, h.2.1, h.2.2 (by decide)⟩

/-- **C3.** For every sequence of fill-fraction inputs fed to the rate
controller, the frequency shift (averaged error times `CONTROL_FACTOR`,
clamped) lies within `[1 − MAX_FREQ_SHIFT, 1 + MAX_FREQ_SHIFT]`. -/
theorem frequency_shift_clamped
    (controlFactor maxFreqShift controlAvg lowWatermark init : ℚ)
    (hM : 0 ≤ maxFreqShift) (fills : List ℚ) :
    1 - maxFreqShift ≤
        frequencyShift controlFactor maxFreqShift
          (rateAvg controlAvg lowWatermark init fills) ∧
      frequencyShift controlFactor maxFreqShift
          (rateAvg controlAvg lowWatermark init fills) ≤ 1 + maxFreqShift := by
  unfold frequencyShift clampQ
  exact ⟨le_max_left _ _, max_le (by linarith) (min_le_left _ _)⟩

/-- Witness for C3 at concrete controller constants and a concrete
fill-fraction sequence. -/
theorem frequency_shift_clamped_witness :
    1 - (1 / 50 : ℚ) ≤
        frequencyShift 200 (1 / 50) (rateAvg (1 / 32) (1 / 2) 0 [1 / 4, 3 / 4]) ∧
      frequencyShift 200 (1 / 50) (rateAvg (1 / 32) (1 / 2) 0 [1 / 4, 3 / 4]) ≤
        1 + 1 / 50 :=
  frequency_shift_clamped 200 (1 / 50) (1 / 32) (1 / 2) 0 (by norm_num) [1 / 4, 3 / 4]

end Mixer
